import Mathlib

/-!
Verification of the HAR analyser engine (`src/App.tsx`).

The definitions below are a shallow embedding of the TypeScript code.
JavaScript numbers are modelled as `Option ℚ`: `some q` is a finite
value, `none` stands for a non-finite value (`NaN` or an infinity) and
also for `undefined` entering arithmetic, since `x + undefined` is `NaN`.
JavaScript string builtins (`split`, `trim`, `includes`, `toLowerCase`,
`JSON.parse`, `JSON.stringify`) are modelled explicitly; each model's
doc comment records the builtin it stands for.
-/

namespace HarSpec

/-- Whitespace recognised by the modelled JavaScript `trim` and by the
JSON grammar: space, tab, newline, carriage return (the ASCII subset of
the JS definition, which covers every input considered here). -/
def isJsSpace (c : Char) : Bool :=
  c = ' ' || c = '\t' || c = '\n' || c = '\r'

/-- Model of JavaScript `String.prototype.split` with a one-character
separator, acting on lists of characters: `"".split(s)` is `[""]`, and
separators at either end produce empty fragments. -/
def splitChL (sep : Char) : List Char → List (List Char)
  | [] => [[]]
  | c :: rest =>
    let r := splitChL sep rest
    if c = sep then [] :: r
    else
      match r with
      | [] => [[c]]
      | h :: t => (c :: h) :: t

/-- Join a list of character lists with a separator character: the
inverse direction of `splitChL`, used to model `Array.prototype.join`. -/
def joinSepL (sep : Char) : List (List Char) → List Char
  | [] => []
  | [h] => h
  | h :: t => h ++ sep :: joinSepL sep t

/-- Model of JavaScript `split` on strings. -/
def jsSplit (sep : Char) (s : String) : List String :=
  (splitChL sep s.toList).map List.asString

/-- Model of JavaScript `String.prototype.trim` on character lists. -/
def jsTrimL (l : List Char) : List Char :=
  ((l.dropWhile isJsSpace).reverse.dropWhile isJsSpace).reverse

/-- Model of JavaScript `String.prototype.trim`. -/
def jsTrim (s : String) : String :=
  (jsTrimL s.toList).asString

/-- Does the pattern occur at the very start of the list? -/
def startsList : List Char → List Char → Bool
  | [], _ => true
  | _ :: _, [] => false
  | a :: as, b :: bs => a = b && startsList as bs

/-- Does the pattern occur anywhere in the list? -/
def occursIn (pat : List Char) : List Char → Bool
  | [] => startsList pat []
  | c :: t => startsList pat (c :: t) || occursIn pat t

/-- Model of JavaScript `String.prototype.includes`. -/
def jsIncludes (s pat : String) : Bool :=
  occursIn pat.toList s.toList

/-- A JavaScript number as observed by the analyser: `some q` for a
finite value, `none` for a non-finite one (`NaN`, an infinity) or for
`undefined` drawn into arithmetic. -/
abbrev JsNum := Option ℚ

/-- JavaScript addition on the number model: any non-finite or
`undefined` operand yields `NaN` (`none`). -/
def jsAdd : JsNum → JsNum → JsNum
  | some a, some b => some (a + b)
  | _, _ => none

/-- JavaScript division on the number model: division by zero yields a
non-finite value (`0/0` is `NaN`, `x/0` is an infinity), modelled as
`none`. -/
def jsDiv : JsNum → JsNum → JsNum
  | some a, some b => if b = 0 then none else some (a / b)
  | _, _ => none

/-- JavaScript `>` on the number model: comparisons against `NaN` or
`undefined` are false. -/
def jsGtB : JsNum → JsNum → Bool
  | some a, some b => decide (b < a)
  | _, _ => false

/-- JSON value as produced by the modelled `JSON.parse`.  A numeral of
the JSON grammar denotes `m * 10^e` and is carried as that scientific
pair.  The model is exact on the range where JavaScript numbers act as
exact decimals; float rounding of extreme literals is outside its
scope. -/
inductive Json where
  | null
  | bool (b : Bool)
  | num (m : Int) (e : Int)
  | str (s : String)
  | arr (xs : List Json)
  | obj (kvs : List (String × Json))

/-- Numeric value of a hexadecimal digit, if it is one. -/
def hexDigitVal (c : Char) : Option Nat :=
  if '0' ≤ c ∧ c ≤ '9' then some (c.toNat - '0'.toNat)
  else if 'a' ≤ c ∧ c ≤ 'f' then some (c.toNat - 'a'.toNat + 10)
  else if 'A' ≤ c ∧ c ≤ 'F' then some (c.toNat - 'A'.toNat + 10)
  else none

/-- Is the character a decimal digit? -/
def isDigitCh (c : Char) : Bool :=
  '0' ≤ c && c ≤ '9'

/-- Numeric value of a run of decimal digits. -/
def digitsVal (l : List Char) : Nat :=
  l.foldl (fun a c => a * 10 + (c.toNat - '0'.toNat)) 0

/-- Parse the body of a JSON string after the opening quote, handling
the escape sequences of the JSON grammar; unescaped control characters
are rejected, as in `JSON.parse`.  Fuel-recursive so the kernel can
evaluate it. -/
def pStr : Nat → List Char → Option (List Char × List Char)
  | 0, _ => none
  | _ + 1, [] => none
  | fuel + 1, c :: rest =>
    if c = '"' then some ([], rest)
    else if c = '\\' then
      match rest with
      | [] => none
      | e :: rest2 =>
        let cont (d : Char) (l : List Char) : Option (List Char × List Char) :=
          match pStr fuel l with
          | some (s, r) => some (d :: s, r)
          | none => none
        if e = '"' then cont '"' rest2
        else if e = '\\' then cont '\\' rest2
        else if e = '/' then cont '/' rest2
        else if e = 'b' then cont (Char.ofNat 8) rest2
        else if e = 'f' then cont (Char.ofNat 12) rest2
        else if e = 'n' then cont '\n' rest2
        else if e = 'r' then cont '\r' rest2
        else if e = 't' then cont '\t' rest2
        else if e = 'u' then
          match rest2 with
          | h1 :: h2 :: h3 :: h4 :: rest3 =>
            match hexDigitVal h1, hexDigitVal h2, hexDigitVal h3, hexDigitVal h4 with
            | some a, some b, some c2, some d2 =>
              cont (Char.ofNat (((a * 16 + b) * 16 + c2) * 16 + d2)) rest3
            | _, _, _, _ => none
          | _ => none
        else none
    else if c.toNat < 32 then none
    else
      match pStr fuel rest with
      | some (s, r) => some (c :: s, r)
      | none => none

/-- Parse the optional fraction part of a JSON numeral: a dot must be
followed by at least one digit. -/
def pFrac : List Char → Option (List Char × List Char)
  | '.' :: t =>
    let p := t.span isDigitCh
    if p.1 = [] then none else some (p.1, p.2)
  | l => some ([], l)

/-- Parse the optional exponent part of a JSON numeral. -/
def pExp : List Char → Option (Int × List Char)
  | [] => some (0, [])
  | c :: t =>
    if c = 'e' ∨ c = 'E' then
      let st : Bool × List Char :=
        match t with
        | '+' :: u => (false, u)
        | '-' :: u => (true, u)
        | _ => (false, t)
      let p := st.2.span isDigitCh
      if p.1 = [] then none
      else some ((if st.1 then -(digitsVal p.1 : Int) else (digitsVal p.1 : Int)), p.2)
    else some (0, c :: t)

/-- Parse a JSON numeral (optional minus, integer part without leading
zeros, optional fraction, optional exponent) into the scientific pair
`(m, e)` denoting `m * 10^e`. -/
def pNum (l : List Char) : Option ((Int × Int) × List Char) :=
  let nl : Bool × List Char :=
    match l with
    | '-' :: t => (true, t)
    | _ => (false, l)
  let ip := nl.2.span isDigitCh
  if ip.1 = [] then none
  else if ip.1.length > 1 ∧ ip.1.headD '0' = '0' then none
  else
    match pFrac ip.2 with
    | none => none
    | some (fracDs, l3) =>
      match pExp l3 with
      | none => none
      | some (e, l4) =>
        let m : Int := (digitsVal (ip.1 ++ fracDs) : Int)
        let e10 : Int := e - fracDs.length
        some (((if nl.1 then -m else m), e10), l4)

mutual

/-- Model of `JSON.parse`'s recursive-descent value parser: parses one
JSON value after optional whitespace and returns the unconsumed input.
Fuel-recursive (two fuel units per consumed character suffice). -/
def pVal : Nat → List Char → Option (Json × List Char)
  | 0, _ => none
  | fuel + 1, l =>
    match l.dropWhile isJsSpace with
    | [] => none
    | c :: rest =>
      if c = 'n' then
        match rest with
        | 'u' :: 'l' :: 'l' :: r => some (.null, r)
        | _ => none
      else if c = 't' then
        match rest with
        | 'r' :: 'u' :: 'e' :: r => some (.bool true, r)
        | _ => none
      else if c = 'f' then
        match rest with
        | 'a' :: 'l' :: 's' :: 'e' :: r => some (.bool false, r)
        | _ => none
      else if c = '"' then
        match pStr (rest.length + 1) rest with
        | some (s, r) => some (.str s.asString, r)
        | none => none
      else if c = '[' then
        match rest.dropWhile isJsSpace with
        | ']' :: r => some (.arr [], r)
        | l2 =>
          match pArrItems fuel l2 with
          | some (xs, r) => some (.arr xs, r)
          | none => none
      else if c = '\x7b' then
        match rest.dropWhile isJsSpace with
        | '\x7d' :: r => some (.obj [], r)
        | l2 =>
          match pObjItems fuel l2 with
          | some (kvs, r) => some (.obj kvs, r)
          | none => none
      else
        match pNum (c :: rest) with
        | some ((m, e), r) => some (.num m e, r)
        | none => none

/-- Comma-separated JSON array items up to the closing bracket. -/
def pArrItems : Nat → List Char → Option (List Json × List Char)
  | 0, _ => none
  | fuel + 1, l =>
    match pVal fuel l with
    | none => none
    | some (v, r) =>
      match r.dropWhile isJsSpace with
      | ',' :: r2 =>
        match pArrItems fuel r2 with
        | some (vs, r3) => some (v :: vs, r3)
        | none => none
      | ']' :: r2 => some ([v], r2)
      | _ => none

/-- Comma-separated JSON object members up to the closing brace. -/
def pObjItems : Nat → List Char → Option (List (String × Json) × List Char)
  | 0, _ => none
  | fuel + 1, l =>
    match l.dropWhile isJsSpace with
    | '"' :: r =>
      match pStr (r.length + 1) r with
      | none => none
      | some (k, r2) =>
        match r2.dropWhile isJsSpace with
        | ':' :: r3 =>
          match pVal fuel r3 with
          | none => none
          | some (v, r4) =>
            match r4.dropWhile isJsSpace with
            | ',' :: r5 =>
              match pObjItems fuel r5 with
              | some (kvs, r6) => some ((k.asString, v) :: kvs, r6)
              | none => none
            | '\x7d' :: r5 => some ([(k.asString, v)], r5)
            | _ => none
        | _ => none
    | _ => none

end

/-- Model of `JSON.parse`: one JSON value with surrounding whitespace;
`none` models the `SyntaxError` throw. -/
def jsonParse (s : String) : Option Json :=
  let l := s.toList
  match pVal (2 * l.length + 2) l with
  | some (v, r) => if r.dropWhile isJsSpace = [] then some v else none
  | none => none

/-- A run of `n` spaces, for `JSON.stringify` indentation. -/
def spacesN (n : Nat) : String :=
  (List.replicate n ' ').asString

/-- Render the number `m * 10^e` in plain decimal notation — the format
`JSON.stringify` uses on the moderate number range exercised here (no
exponent notation, no infinities): trailing fractional zeros are
dropped, a zero mantissa renders as `"0"`. -/
def renderNum (m e : Int) : String :=
  if m = 0 then "0"
  else
    let sign := if m < 0 then "-" else ""
    let n := m.natAbs
    if 0 ≤ e then
      sign ++ toString n ++ (List.replicate e.toNat '0').asString
    else
      let k := (-e).toNat
      let ip := n / 10 ^ k
      let fp := n % 10 ^ k
      let ds := Nat.toDigits 10 fp
      let padded := List.replicate (k - ds.length) '0' ++ ds
      let frac := (padded.reverse.dropWhile (fun c => c = '0')).reverse
      sign ++ toString ip ++ (if frac = [] then "" else "." ++ frac.asString)

/-- Lower-case hexadecimal digit character. -/
def hexChar (n : Nat) : Char :=
  if n < 10 then Char.ofNat ('0'.toNat + n) else Char.ofNat ('a'.toNat + n - 10)

/-- Escape one character the way `JSON.stringify` quotes strings. -/
def quoteChar (c : Char) : String :=
  if c = '"' then "\\\""
  else if c = '\\' then "\\\\"
  else if c = '\n' then "\\n"
  else if c = '\r' then "\\r"
  else if c = '\t' then "\\t"
  else if c.toNat = 8 then "\\b"
  else if c.toNat = 12 then "\\f"
  else if c.toNat < 32 then
    "\\u00" ++ (hexChar (c.toNat / 16)).toString ++ (hexChar (c.toNat % 16)).toString
  else String.singleton c

/-- Quote a string the way `JSON.stringify` does. -/
def quoteStr (s : String) : String :=
  "\"" ++ String.join (s.toList.map quoteChar) ++ "\""

/-- Model of `JSON.stringify(v, null, 2)` at indentation `ind`:
arrays and objects put each element on its own line, indented two
further spaces, with `": "` after object keys.  Fuel-recursive so the
kernel can evaluate it; `sizeOf` bounds the nesting depth. -/
def stringifyF : Nat → Nat → Json → String
  | 0, _, _ => ""
  | _ + 1, _, .null => "null"
  | _ + 1, _, .bool true => "true"
  | _ + 1, _, .bool false => "false"
  | _ + 1, _, .num m e => renderNum m e
  | _ + 1, _, .str s => quoteStr s
  | fuel + 1, ind, .arr xs =>
    match xs with
    | [] => "[]"
    | _ =>
      "[\n" ++
        String.intercalate ",\n"
          (xs.map fun x => spacesN (ind + 2) ++ stringifyF fuel (ind + 2) x) ++
        "\n" ++ spacesN ind ++ "]"
  | fuel + 1, ind, .obj kvs =>
    match kvs with
    | [] => "\x7b\x7d"
    | _ =>
      "\x7b\n" ++
        String.intercalate ",\n"
          (kvs.map fun kv =>
            spacesN (ind + 2) ++ quoteStr kv.1 ++ ": " ++ stringifyF fuel (ind + 2) kv.2) ++
        "\n" ++ spacesN ind ++ "\x7d"

/-- Model of `JSON.stringify(v, null, 2)` applied to a value parsed
from the text `t`: the nesting depth of a parsed value never exceeds
the length of its source text, so `t.length + 1` fuel always suffices
for `stringifyF`. -/
def jsonReserialize (t : String) (v : Json) : String :=
  stringifyF (t.toList.length + 1) 0 v

/-- HAR header name/value pair (interface `HarHeader`). -/
structure HarHeader where
  name : String
  value : String
deriving DecidableEq

/-- HAR query-string parameter (interface `HarQueryString`). -/
structure HarQueryString where
  name : String
  value : String
deriving DecidableEq

/-- HAR post data (interface `HarPostData`); the `params` list is kept
abstract as name/value pairs, which is all the engine reads. -/
structure HarPostData where
  mimeType : String
  text : Option String
deriving DecidableEq

/-- HAR response content (interface `HarContent`).  The TypeScript
interface declares `size : number`, but values reach the program through
an unvalidated `JSON.parse` cast, so a field may be absent at runtime;
absence is `none`. -/
structure HarContent where
  size : Option ℚ
  mimeType : String
  text : Option String
  encoding : Option String
deriving DecidableEq

/-- HAR timing phases (interface `HarTimings`), absent phases `none`. -/
structure HarTimings where
  blocked : Option ℚ
  dns : Option ℚ
  connect : Option ℚ
  send : Option ℚ
  wait : Option ℚ
  receive : Option ℚ
  ssl : Option ℚ
deriving DecidableEq

/-- HAR request (interface `HarRequest`). -/
structure HarRequest where
  method : String
  url : String
  httpVersion : String
  headers : List HarHeader
  queryString : List HarQueryString
  postData : Option HarPostData
  headersSize : Option ℚ
  bodySize : Option ℚ
deriving DecidableEq

/-- HAR response (interface `HarResponse`).  `bodySize` may be absent at
runtime (the data is cast from JSON without validation). -/
structure HarResponse where
  status : Int
  statusText : String
  httpVersion : String
  headers : List HarHeader
  content : HarContent
  redirectURL : String
  headersSize : Option ℚ
  bodySize : Option ℚ
deriving DecidableEq

/-- HAR entry (interface `HarEntry`).  `time` may be absent at runtime,
as the specified data model acknowledges ("may be fractional or
absent"). -/
structure HarEntry where
  startedDateTime : String
  time : Option ℚ
  request : HarRequest
  response : HarResponse
  timings : HarTimings
  serverIPAddress : Option String
deriving DecidableEq

/-- Result of `formatContent`: either the "No content" element or a
syntax-highlighted block carrying a language tag and the display text. -/
inductive ContentView where
  | noContent
  | highlighted (language : String) (text : String)
deriving DecidableEq

/-- Embedding of `formatContent` (App.tsx lines 293-325).  The guard
`if (!content.text)` is true both for an absent and for an empty text,
since `""` is falsy.  On a MIME type containing "json" the text is
parsed and re-serialized with `JSON.stringify(parsed, null, 2)`; a
parse failure keeps the raw text with language "text" and, being inside
the first branch of the else-if chain, skips the other MIME checks. -/
def formatContent (content : HarContent) : ContentView :=
  match content.text with
  | none => .noContent
  | some t =>
    if t = "" then .noContent
    else if jsIncludes content.mimeType "json" then
      match jsonParse t with
      | some parsed => .highlighted "json" (jsonReserialize t parsed)
      | none => .highlighted "text" t
    else if jsIncludes content.mimeType "html" then .highlighted "html" t
    else if jsIncludes content.mimeType "javascript" then .highlighted "javascript" t
    else if jsIncludes content.mimeType "css" then .highlighted "css" t
    else if jsIncludes content.mimeType "xml" then .highlighted "xml" t
    else .highlighted "text" t

/-- Embedding of the entry-list filter predicate (App.tsx lines
416-439).  `if (searchTerm && ...)` is modelled through the truthiness
of the string: an empty search term skips the whole search check. -/
def entryPasses (searchTerm filterMethod filterStatus : String)
    (entry : HarEntry) : Bool :=
  if searchTerm ≠ "" ∧
      jsIncludes entry.request.url.toLower searchTerm.toLower = false ∧
      jsIncludes entry.request.method.toLower searchTerm.toLower = false then false
  else if filterMethod ≠ "all" ∧ entry.request.method ≠ filterMethod then false
  else if filterStatus ≠ "all" then
    if filterStatus = "2xx" ∧
        (entry.response.status < 200 ∨ 300 ≤ entry.response.status) then false
    else if filterStatus = "3xx" ∧
        (entry.response.status < 300 ∨ 400 ≤ entry.response.status) then false
    else if filterStatus = "4xx" ∧
        (entry.response.status < 400 ∨ 500 ≤ entry.response.status) then false
    else if filterStatus = "5xx" ∧
        (entry.response.status < 500 ∨ 600 ≤ entry.response.status) then false
    else true
  else true

/-- The five status buckets of the summary tally. -/
inductive StatusClass where
  | s2xx | s3xx | s4xx | s5xx | other
deriving DecidableEq

/-- Embedding of the status tally's if/else-if chain (App.tsx lines
961-966). -/
def statusClassOf (status : Int) : StatusClass :=
  if 200 ≤ status ∧ status < 300 then .s2xx
  else if 300 ≤ status ∧ status < 400 then .s3xx
  else if 400 ≤ status ∧ status < 500 then .s4xx
  else if 500 ≤ status ∧ status < 600 then .s5xx
  else .other

/-- The `statusGroups` accumulator object (App.tsx lines 952-958). -/
structure StatusGroupCounts where
  g2xx : Nat
  g3xx : Nat
  g4xx : Nat
  g5xx : Nat
  gOther : Nat
deriving DecidableEq

/-- One step of the `forEach` status tally (App.tsx lines 960-967). -/
def statusGroupBump (g : StatusGroupCounts) (status : Int) : StatusGroupCounts :=
  match statusClassOf status with
  | .s2xx => { g with g2xx := g.g2xx + 1 }
  | .s3xx => { g with g3xx := g.g3xx + 1 }
  | .s4xx => { g with g4xx := g.g4xx + 1 }
  | .s5xx => { g with g5xx := g.g5xx + 1 }
  | .other => { g with gOther := g.gOther + 1 }

/-- Embedding of the status-code distribution tally (App.tsx lines
951-967). -/
def statusGroupCounts (entries : List HarEntry) : StatusGroupCounts :=
  entries.foldl (fun g e => statusGroupBump g e.response.status) ⟨0, 0, 0, 0, 0⟩

/-- Increment the tally for `key` in an insertion-ordered association
list, appending the key on first sight — the behaviour of the JS object
accumulator `acc[k] = (acc[k] || 0) + 1` (string keys keep insertion
order). -/
def bumpAssoc (key : String) : List (String × Nat) → List (String × Nat)
  | [] => [(key, 1)]
  | (k, n) :: t => if k = key then (k, n + 1) :: t else (k, n) :: bumpAssoc key t

/-- Embedding of the method-distribution reduce (App.tsx lines
926-929). -/
def methodCounts (entries : List HarEntry) : List (String × Nat) :=
  entries.foldl (fun acc e => bumpAssoc e.request.method acc) []

/-- Embedding of the content-type grouping key (App.tsx lines 998-1001):
`mimeType.split(';')[0].trim()`, then the segment after the first slash
(`split('/')[1]`) if the stripped string contains one, else the whole
stripped string. -/
def contentTypeKey (mimeType : String) : String :=
  let m := jsTrim ((jsSplit ';' mimeType).headD "")
  if jsIncludes m "/" then (jsSplit '/' m).getD 1 "" else m

/-- Embedding of the content-type distribution reduce (App.tsx lines
996-1005). -/
def contentTypeCounts (entries : List HarEntry) : List (String × Nat) :=
  entries.foldl (fun acc e => bumpAssoc (contentTypeKey e.response.content.mimeType) acc) []

/-- Embedding of "Total Requests" (App.tsx line 899). -/
def totalRequests (entries : List HarEntry) : Nat :=
  entries.length

/-- Embedding of the "Total Size" sum (App.tsx line 902):
`entries.reduce((sum, entry) => sum + entry.response.bodySize, 0)`;
an absent `bodySize` drawn into `+` yields `NaN`. -/
def totalSizeSum (entries : List HarEntry) : JsNum :=
  entries.foldl (fun sum e => jsAdd sum e.response.bodySize) (some 0)

/-- Embedding of the "Average Response Time" expression (App.tsx line
905): the sum of `entry.time` divided by `entries.length`; for an empty
list this is `0 / 0 = NaN`, and an absent `time` makes the sum `NaN`. -/
def averageTime (entries : List HarEntry) : JsNum :=
  jsDiv (entries.foldl (fun sum e => jsAdd sum e.time) (some 0))
    (some (entries.length : ℚ))

/-- The reducer of the "Slowest Request" computation (App.tsx lines
910-911): `(prev, current) => (prev.time > current.time) ? prev : current`.
On a tie — or whenever the comparison is false, as it is against an
absent time — the reducer moves to `current`. -/
def slowestStep (prev current : HarEntry) : HarEntry :=
  if jsGtB prev.time current.time then prev else current

/-- Embedding of the "Slowest Request" reduce (App.tsx lines 910-911):
`entries.reduce((prev, current) => ...)` with no initial value — on an
empty list JavaScript throws a TypeError, modelled as `none`. -/
def slowestEntry (entries : List HarEntry) : Option HarEntry :=
  match entries with
  | [] => none
  | e :: rest => some (rest.foldl slowestStep e)

/-- Embedding of the per-line header conversion (App.tsx lines 562-566):
`const [name, ...valueParts] = line.split(':')` takes the text before
the first colon as the name, unchanged; the value re-joins the remaining
parts with `':'` and trims.  (`splitChL` never returns `[]`, so the
first branch is unreachable.) -/
def parseHeaderLineL (line : List Char) : HarHeader :=
  match splitChL ':' line with
  | [] => ⟨"", ""⟩
  | name :: valueParts => ⟨name.asString, (jsTrimL (joinSepL ':' valueParts)).asString⟩

/-- Embedding of the headers textarea change handler (App.tsx lines
560-571): the text is split on newlines and every line — including
empty ones — is converted to a header. -/
def parseHeaderLines (text : String) : List HarHeader :=
  (splitChL '\n' text.toList).map parseHeaderLineL

/-- Embedding of `openHarFile`'s load step (App.tsx lines 183-193) as a
transition on the loaded-capture state: the chosen file's text is
`JSON.parse`d and stored as the capture through a type cast, with no
schema validation; if `JSON.parse` throws, the `catch` only logs to the
console and the previous capture state is left unchanged. -/
def openHarFileUpdate (content : String) (prevHarFile : Option Json) : Option Json :=
  match jsonParse content with
  | some harData => some harData
  | none => prevHarFile

/-- Error kinds of the replay engine, from §7 of the specification. -/
inductive ReplayErrorKind where
  | invalidURL | networkFailure | timeout
deriving DecidableEq

/-- Modelled from the spec: the Rust `replay_request` command (the
Tauri backend, which is not under `src/`) resolves with the response
serialized as a JSON string, or rejects with a `ReplayError` — kind
`InvalidURL`, `NetworkFailure` or `Timeout` — for a malformed URL or an
unreachable host.  Only the shape of the outcome matters to the
frontend handler `replayRequestUpdate`. -/
structure ReplayError where
  kind : ReplayErrorKind
  message : String
deriving DecidableEq

/-- Embedding of `replayRequest`'s handling of the backend outcome
(App.tsx lines 198-238) as a transition on the `replayResponse` state:
a resolved invocation has its JSON string parsed and stored; a rejected
invocation — or a response string that fails to parse — lands in the
`catch`, which only calls `console.error`, so no state changes and no
error value is stored anywhere. -/
def replayRequestUpdate (outcome : Except ReplayError String)
    (prevReplayResponse : Option Json) : Option Json :=
  match outcome with
  | .error _ => prevReplayResponse
  | .ok s =>
    match jsonParse s with
    | some j => some j
    | none => prevReplayResponse

/-- A concrete entry builder for the concrete evaluations below. -/
def mkEntry (method url : String) (status : Int) (mime : String)
    (time bodySize : Option ℚ) : HarEntry :=
  { startedDateTime := "2024-01-01T00:00:00Z"
    time := time
    request :=
      { method := method, url := url, httpVersion := "HTTP/1.1", headers := [],
        queryString := [], postData := none, headersSize := some 0, bodySize := some 0 }
    response :=
      { status := status, statusText := "", httpVersion := "HTTP/1.1", headers := [],
        content := { size := some 0, mimeType := mime, text := none, encoding := none },
        redirectURL := "", headersSize := some 0, bodySize := bodySize }
    timings := { blocked := none, dns := none, connect := none, send := none,
                 wait := none, receive := none, ssl := none }
    serverIPAddress := none }

/-! ### Lemmas about the string primitives -/

lemma splitChL_ne_nil (sep : Char) (l : List Char) : splitChL sep l ≠ [] := by
  cases l with
  | nil => simp [splitChL]
  | cons c rest =>
    simp only [splitChL]
    by_cases h : c = sep
    · simp [h]
    · simp only [h, if_false]
      cases splitChL sep rest <;> simp

lemma splitChL_of_not_mem (sep : Char) (l : List Char) (h : sep ∉ l) :
    splitChL sep l = [l] := by
  induction l with
  | nil => rfl
  | cons c rest ih =>
    have hc : ¬ c = sep := fun hcs => h (hcs ▸ List.mem_cons_self c rest)
    have hr : sep ∉ rest := fun hm => h (List.mem_cons_of_mem c hm)
    simp only [splitChL, hc, if_false, ih hr]

lemma splitChL_append_sep (sep : Char) (a b : List Char) (h : sep ∉ a) :
    splitChL sep (a ++ sep :: b) = a :: splitChL sep b := by
  induction a with
  | nil => simp [splitChL]
  | cons c a' ih =>
    have hc : ¬ c = sep := fun hcs => h (hcs ▸ List.mem_cons_self c a')
    have ha : sep ∉ a' := fun hm => h (List.mem_cons_of_mem c hm)
    simp only [List.cons_append, splitChL, hc, if_false, List.append_eq, ih ha]

lemma joinSepL_splitChL (sep : Char) (l : List Char) :
    joinSepL sep (splitChL sep l) = l := by
  induction l with
  | nil => rfl
  | cons c rest ih =>
    by_cases h : c = sep
    · subst h
      simp only [splitChL, if_pos rfl]
      rcases hr : splitChL c rest with _ | ⟨r0, r'⟩
      · exact absurd hr (splitChL_ne_nil c rest)
      · rw [hr] at ih
        simp only [joinSepL]
        rw [← ih]
        exact List.nil_append _
    · simp only [splitChL, h, if_false]
      rcases hr : splitChL sep rest with _ | ⟨r0, r'⟩
      · exact absurd hr (splitChL_ne_nil sep rest)
      · rw [hr] at ih
        cases r' with
        | nil => simpa [joinSepL] using congrArg (c :: ·) ih
        | cons r1 r'' => simpa [joinSepL] using congrArg (c :: ·) ih

lemma mem_headD_splitChL (sep x : Char) (l : List Char)
    (h : x ∈ (splitChL sep l).headD []) : x ∈ l := by
  induction l with
  | nil => simp [splitChL] at h
  | cons c rest ih =>
    by_cases hc : c = sep
    · simp [splitChL, hc] at h
    · simp only [splitChL, hc, if_false] at h
      rcases hr : splitChL sep rest with _ | ⟨r0, r'⟩
      · exact absurd hr (splitChL_ne_nil sep rest)
      · rw [hr] at h
        simp only [List.headD_cons] at h
        rcases List.mem_cons.mp h with h1 | h1
        · exact h1 ▸ List.mem_cons_self c rest
        · refine List.mem_cons_of_mem c (ih ?_)
          rw [hr]
          simpa using h1

lemma mem_dropWhileCh (p : Char → Bool) (x : Char) (l : List Char)
    (h : x ∈ l.dropWhile p) : x ∈ l := by
  induction l with
  | nil => simp at h
  | cons c rest ih =>
    by_cases hc : p c = true
    · simp only [List.dropWhile_cons, hc, if_true] at h
      exact List.mem_cons_of_mem c (ih h)
    · simp only [List.dropWhile_cons, hc, if_false] at h
      exact h

lemma mem_jsTrimL (x : Char) (l : List Char) (h : x ∈ jsTrimL l) : x ∈ l := by
  unfold jsTrimL at h
  rw [List.mem_reverse] at h
  have h2 := mem_dropWhileCh isJsSpace x _ h
  rw [List.mem_reverse] at h2
  exact mem_dropWhileCh isJsSpace x l h2

lemma occursIn_singleton (c : Char) (l : List Char) :
    occursIn [c] l = true ↔ c ∈ l := by
  induction l with
  | nil => simp [occursIn, startsList]
  | cons d t ih =>
    simp only [occursIn, startsList, Bool.or_eq_true, Bool.and_eq_true, ih]
    constructor
    · rintro (⟨h1, _⟩ | h1)
      · exact (of_decide_eq_true h1) ▸ List.mem_cons_self d t
      · exact List.mem_cons_of_mem d h1
    · intro h1
      rcases List.mem_cons.mp h1 with h2 | h2
      · exact Or.inl ⟨decide_eq_true h2, trivial⟩
      · exact Or.inr h2

lemma asString_toList (s : String) : s.toList.asString = s := by
  cases s
  rfl

/-! ### Lemmas about the slowest-request reduce -/

lemma jsGtB_iff (a b : HarEntry) (ha : a.time.isSome = true)
    (hb : b.time.isSome = true) :
    jsGtB a.time b.time = true ↔ b.time.getD 0 < a.time.getD 0 := by
  obtain ⟨x, hx⟩ := Option.isSome_iff_exists.mp ha
  obtain ⟨y, hy⟩ := Option.isSome_iff_exists.mp hb
  simp [hx, hy, jsGtB]

/-- Invariant of the slowest-request fold: starting from `a`, the fold
over `l` returns a member of `a :: l` whose time bounds every time in
`a :: l`, and everything strictly after the returned entry has a
strictly smaller time — the reducer keeps the *last* entry attaining
the maximum, because a tie moves it to `current`. -/
lemma slowest_foldl_spec (l : List HarEntry) :
    ∀ a : HarEntry, a.time.isSome = true → (∀ e ∈ l, e.time.isSome = true) →
      (l.foldl slowestStep a) ∈ a :: l ∧
      (∀ e ∈ a :: l, e.time.getD 0 ≤ (l.foldl slowestStep a).time.getD 0) ∧
      ∃ pre post, a :: l = pre ++ (l.foldl slowestStep a) :: post ∧
        ∀ e ∈ post, e.time.getD 0 < (l.foldl slowestStep a).time.getD 0 := by
  induction l with
  | nil =>
    intro a _ _
    refine ⟨List.mem_singleton.mpr rfl, ?_, [], [], rfl, ?_⟩
    · intro e he
      rw [List.mem_singleton] at he
      exact he ▸ le_refl _
    · intro e he
      simp at he
  | cons b t ih =>
    intro a ha hbt
    have hb : b.time.isSome = true := hbt b (List.mem_cons_self b t)
    have ht : ∀ e ∈ t, e.time.isSome = true :=
      fun e he => hbt e (List.mem_cons_of_mem b he)
    rw [List.foldl_cons]
    by_cases hc : jsGtB a.time b.time = true
    · have hstep : slowestStep a b = a := by simp [slowestStep, hc]
      rw [hstep]
      set m := t.foldl slowestStep a with hm
      obtain ⟨hmem, hmax, pre, post, hdec, hpost⟩ := ih a ha ht
      rw [← hm] at hmem hmax hdec hpost
      have hba : b.time.getD 0 < a.time.getD 0 := (jsGtB_iff a b ha hb).mp hc
      have ham : a.time.getD 0 ≤ m.time.getD 0 := hmax a (List.mem_cons_self a t)
      refine ⟨?_, ?_, ?_⟩
      · rcases List.mem_cons.mp hmem with h | h
        · rw [h]
          exact List.mem_cons_self _ _
        · exact List.mem_cons_of_mem a (List.mem_cons_of_mem b h)
      · intro e he
        rcases List.mem_cons.mp he with h | h
        · exact h ▸ ham
        · rcases List.mem_cons.mp h with h2 | h2
          · exact h2 ▸ le_of_lt (lt_of_lt_of_le hba ham)
          · exact hmax e (List.mem_cons_of_mem a h2)
      · cases pre with
        | nil =>
          rw [List.nil_append] at hdec
          have h1 : a = m := (List.cons_eq_cons.mp hdec).1
          have h2 : t = post := (List.cons_eq_cons.mp hdec).2
          refine ⟨[], b :: t, ?_, ?_⟩
          · rw [List.nil_append, ← h1]
          · intro e he
            rcases List.mem_cons.mp he with h3 | h3
            · exact h3 ▸ lt_of_lt_of_le hba ham
            · exact hpost e (h2 ▸ h3)
        | cons p pre' =>
          rw [List.cons_append] at hdec
          have h2 : t = pre' ++ m :: post := (List.cons_eq_cons.mp hdec).2
          refine ⟨a :: b :: pre', post, ?_, hpost⟩
          rw [h2, List.cons_append, List.cons_append]
    · have hstep : slowestStep a b = b := by simp [slowestStep, hc]
      rw [hstep]
      set m := t.foldl slowestStep b with hm
      obtain ⟨hmem, hmax, pre, post, hdec, hpost⟩ := ih b hb ht
      rw [← hm] at hmem hmax hdec hpost
      have hab : a.time.getD 0 ≤ b.time.getD 0 := by
        by_contra hlt
        exact hc ((jsGtB_iff a b ha hb).mpr (lt_of_not_le hlt))
      have hbm : b.time.getD 0 ≤ m.time.getD 0 := hmax b (List.mem_cons_self b t)
      refine ⟨List.mem_cons_of_mem a hmem, ?_, a :: pre, post, ?_, hpost⟩
      · intro e he
        rcases List.mem_cons.mp he with h | h
        · exact h ▸ le_trans hab hbm
        · exact hmax e h
      · rw [List.cons_append, ← hdec]

/-! ### Claim theorems -/

/-- Claim C1: the specification asserts that an empty capture
summarizes to totalCount 0, averageTime 0, totalBodyBytes 0 and empty
distributions, with no exception and no NaN.  Evaluating the embedded
summary block on the empty entry list: the count, size sum and all
three distributions are indeed zero/empty, but the average is `0 / 0`
(`NaN`, modelled `none`) and the slowest-request reduce runs with no
initial value on an empty array, which throws a TypeError (modelled
`none`) — the code contradicts the specified behaviour. -/
theorem claim_C1_empty_capture_evaluation :
    totalRequests [] = 0 ∧ totalSizeSum [] = some 0 ∧
    methodCounts [] = [] ∧ statusGroupCounts [] = ⟨0, 0, 0, 0, 0⟩ ∧
    contentTypeCounts [] = [] ∧
    averageTime [] = none ∧ slowestEntry [] = none := by
  decide

/-- Claim C3 counterexample: a replay rejected with a `NetworkFailure`
(the unreachable-port scenario of the specification) leaves the
replay-response state exactly as it was — the failure never reaches the
caller, refuting "the failure is never silently swallowed". -/
theorem claim_C3_counterexample :
    replayRequestUpdate
      (Except.error ⟨ReplayErrorKind.networkFailure, "connection refused"⟩)
      none = none := rfl

/-- Claim C3 (amended): a replay against a malformed or unreachable URL
rejects with a `ReplayError`, but the frontend handler catches the
rejection and only logs it to the console: for every error and every
prior state the replay-response state is left unchanged, so the failure
is swallowed rather than surfaced to the caller. -/
theorem claim_C3_amended (err : ReplayError) (prev : Option Json) :
    replayRequestUpdate (Except.error err) prev = prev := rfl

/-- Claim C4 counterexample: the document `\x7b\x7d` (an empty JSON
object) is syntactically valid JSON with no `log.entries`, yet the load
succeeds and stores it as the capture — no `ParseError` of kind
`SchemaViolation` is ever produced. -/
theorem claim_C4_counterexample :
    openHarFileUpdate "\x7b\x7d" none = some (Json.obj []) := rfl

/-- Claim C4 (amended): `openHarFile` accepts every syntactically valid
JSON document and fails exactly when the input is not valid JSON
(`JSON.parse` throws): no schema validation is performed, so an absent
`log.entries` is accepted at load time, and on a parse failure the
previous capture state is kept. -/
theorem claim_C4_amended (content : String) (prev : Option Json) :
    (∀ j, jsonParse content = some j → openHarFileUpdate content prev = some j) ∧
    (jsonParse content = none → openHarFileUpdate content prev = prev) := by
  constructor
  · intro j hj
    simp [openHarFileUpdate, hj]
  · intro hj
    simp [openHarFileUpdate, hj]

/-- Witness for the amended claim C4 at concrete inputs: a valid JSON
array is accepted, and a malformed document leaves the previous capture
in place. -/
theorem claim_C4_witness :
    openHarFileUpdate "[]" none = some (Json.arr []) ∧
    openHarFileUpdate "not json" (some (Json.arr [])) = some (Json.arr []) :=
  ⟨(claim_C4_amended "[]" none).1 (Json.arr []) rfl,
   (claim_C4_amended "not json" (some (Json.arr []))).2 rfl⟩

/-- Claim C6: the specification requires the aggregates to treat an
absent field as 0 and never produce a non-numeric result.  Evaluating
the embedded aggregates: an entry with an absent `time` makes the
average `NaN` (`none`) instead of counting 0, and an absent response
`bodySize` makes the size total `NaN` — while a present zero time is
handled without error, averaging to 0, so the failure is specific to
absent fields. -/
theorem claim_C6_absent_fields_evaluation :
    averageTime [mkEntry "GET" "http://e.com/" 200 "text/plain" none (some 10)]
      = none ∧
    totalSizeSum [mkEntry "GET" "http://e.com/" 200 "text/plain" (some 1) none]
      = none ∧
    averageTime [mkEntry "GET" "http://e.com/" 200 "text/plain" (some 0) (some 0)]
      = some 0 := by
  refine ⟨by decide, by decide, ?_⟩
  simp [averageTime, jsAdd, jsDiv, mkEntry]

/-- Every entry passes the filter predicate when the search term is
empty and both dropdowns are at their "all" sentinel. -/
lemma entryPasses_all (e : HarEntry) : entryPasses "" "all" "all" e = true := by
  simp [entryPasses]

/-- Claim C8: filtering with an empty search term, method "all" and
status class "all" is the identity: every entry passes the predicate,
and `Array.prototype.filter` keeps order, so the entry list is returned
unchanged in order and length. -/
theorem claim_C8_identity_filter (entries : List HarEntry) :
    entries.filter (entryPasses "" "all" "all") = entries :=
  List.filter_eq_self.mpr fun e _ => entryPasses_all e

/-- Claim C2 counterexample: two entries share the maximal time 5; the
first occurrence in capture order has URL "u1", but the code reports
"u2" — on a tie the reducer moves to `current`, so the last occurrence
wins, not the first. -/
theorem claim_C2_counterexample :
    (slowestEntry
        [mkEntry "GET" "u1" 200 "text/plain" (some 5) (some 0),
         mkEntry "GET" "u2" 200 "text/plain" (some 5) (some 0)]).map
      (fun e => e.request.url) = some "u2" ∧
    (slowestEntry
        [mkEntry "GET" "u1" 200 "text/plain" (some 5) (some 0),
         mkEntry "GET" "u2" 200 "text/plain" (some 5) (some 0)]).map
      (fun e => e.request.url) ≠ some "u1" := by
  decide

/-- Claim C2 (amended): for every non-empty entry list in which every
entry carries a present `time`, the reported slowest entry is a member
of the list with maximal time, and when two or more entries share the
maximal time the one reported is the *last* occurrence in capture order
(every entry after the reported one is strictly faster). -/
theorem claim_C2_amended (entries : List HarEntry) (hne : entries ≠ [])
    (hall : ∀ e ∈ entries, e.time.isSome = true) :
    ∃ m, slowestEntry entries = some m ∧ m ∈ entries ∧
      (∀ e ∈ entries, e.time.getD 0 ≤ m.time.getD 0) ∧
      ∃ pre post, entries = pre ++ m :: post ∧
        ∀ e ∈ post, e.time.getD 0 < m.time.getD 0 := by
  cases entries with
  | nil => exact absurd rfl hne
  | cons a t =>
    have ha := hall a (List.mem_cons_self a t)
    have ht : ∀ e ∈ t, e.time.isSome = true :=
      fun e he => hall e (List.mem_cons_of_mem a he)
    obtain ⟨hmem, hmax, pre, post, hdec, hpost⟩ := slowest_foldl_spec t a ha ht
    exact ⟨t.foldl slowestStep a, rfl, hmem, hmax, pre, post, hdec, hpost⟩

/-- Witness for the amended claim C2 on a concrete two-entry list. -/
theorem claim_C2_witness :
    ∃ m, slowestEntry
        [mkEntry "GET" "w1" 200 "text/plain" (some 1) (some 0),
         mkEntry "GET" "w2" 200 "text/plain" (some 5) (some 0)] = some m ∧
      m ∈ [mkEntry "GET" "w1" 200 "text/plain" (some 1) (some 0),
           mkEntry "GET" "w2" 200 "text/plain" (some 5) (some 0)] ∧
      (∀ e ∈ [mkEntry "GET" "w1" 200 "text/plain" (some 1) (some 0),
              mkEntry "GET" "w2" 200 "text/plain" (some 5) (some 0)],
        e.time.getD 0 ≤ m.time.getD 0) ∧
      ∃ pre post,
        [mkEntry "GET" "w1" 200 "text/plain" (some 1) (some 0),
         mkEntry "GET" "w2" 200 "text/plain" (some 5) (some 0)] =
          pre ++ m :: post ∧
        ∀ e ∈ post, e.time.getD 0 < m.time.getD 0 :=
  claim_C2_amended
    [mkEntry "GET" "w1" 200 "text/plain" (some 1) (some 0),
     mkEntry "GET" "w2" 200 "text/plain" (some 5) (some 0)]
    (by decide) (by decide)

/-- Claim C5 counterexample: per the claim the line "A : B" should give
the whitespace-trimmed name "A"; the code never trims the name and
yields "A " with a trailing space. -/
theorem claim_C5_counterexample :
    parseHeaderLines "A : B" = [⟨"A ", "B"⟩] ∧
    parseHeaderLines "A : B" ≠ [⟨"A", "B"⟩] := by
  decide

/-- Claim C5 (amended): every line is split on the first colon into a
name — the text before the colon, *not* whitespace-trimmed — and a
value — the remaining parts re-joined on ':', so colons inside the
value are preserved, then whitespace-trimmed; a line with no colon
yields an empty value rather than an error; and the claim's example
holds as stated. -/
theorem claim_C5_amended :
    (∀ name value : String, ':' ∉ name.toList →
      parseHeaderLineL (name.toList ++ ':' :: value.toList) =
        ⟨name, jsTrim value⟩) ∧
    (∀ line : String, ':' ∉ line.toList →
      parseHeaderLineL line.toList = ⟨line, ""⟩) ∧
    parseHeaderLines "Accept: */*\nBad-Header-No-Colon" =
      [⟨"Accept", "*/*"⟩, ⟨"Bad-Header-No-Colon", ""⟩] := by
  refine ⟨?_, ?_, by decide⟩
  · intro name value h
    unfold parseHeaderLineL
    rw [splitChL_append_sep ':' name.toList value.toList h]
    simp only [joinSepL_splitChL, asString_toList, jsTrim]
  · intro line h
    unfold parseHeaderLineL
    rw [splitChL_of_not_mem ':' line.toList h]
    simp only [joinSepL, jsTrimL, List.dropWhile_nil, List.reverse_nil,
      asString_toList]
    rfl

/-- Witness for the amended claim C5: a value containing a colon and
surrounding whitespace is preserved up to trimming, and a colon-free
line gets an empty value. -/
theorem claim_C5_witness :
    parseHeaderLineL ("X".toList ++ ':' :: " a:b ".toList) =
      ⟨"X", jsTrim " a:b "⟩ ∧
    parseHeaderLineL "NoColonLine".toList = ⟨"NoColonLine", ""⟩ :=
  ⟨claim_C5_amended.1 "X" " a:b " (by decide),
   claim_C5_amended.2.1 "NoColonLine" (by decide)⟩

/-- Claim C7 counterexample: the empty text fails to parse as JSON, so
per the claim it should be returned unchanged with language "text"; the
code instead takes the falsy `!content.text` guard and returns the
no-content sentinel. -/
theorem claim_C7_counterexample :
    jsonParse "" = none ∧
    formatContent ⟨some 0, "application/json", some "", none⟩ =
      ContentView.noContent ∧
    ContentView.noContent ≠ ContentView.highlighted "text" "" :=
  ⟨rfl, by decide, by decide⟩

/-- Claim C7 (amended): for a body whose MIME type contains "json" and
whose text is present and non-empty, a text that parses as JSON yields
language "json" and the text re-serialized with 2-space indentation,
and a text that fails to parse is returned unchanged with language
"text"; an *empty* text is falsy in the `!content.text` guard and
yields the no-content sentinel instead of the raw-text fallback.  The
claim's round-trip example holds. -/
theorem claim_C7_amended (content : HarContent) (t : String)
    (htext : content.text = some t)
    (hmime : jsIncludes content.mimeType "json" = true) :
    (t = "" → formatContent content = ContentView.noContent) ∧
    (∀ v, jsonParse t = some v → t ≠ "" →
      formatContent content =
        ContentView.highlighted "json" (jsonReserialize t v)) ∧
    (jsonParse t = none → t ≠ "" →
      formatContent content = ContentView.highlighted "text" t) ∧
    formatContent ⟨some 0, "application/json", some "\x7b\"a\":1\x7d", none⟩ =
      ContentView.highlighted "json" "\x7b\n  \"a\": 1\n\x7d" := by
  refine ⟨?_, ?_, ?_, by decide⟩
  · intro h
    subst h
    simp [formatContent, htext]
  · intro v hv h
    simp [formatContent, htext, h, hmime, hv]
  · intro hv h
    simp [formatContent, htext, h, hmime, hv]

/-- Witness for the amended claim C7: a JSON-typed body with
unparseable text falls back to the raw text with language "text". -/
theorem claim_C7_witness :
    formatContent ⟨some 0, "application/json", some "not json", none⟩ =
      ContentView.highlighted "text" "not json" :=
  (claim_C7_amended ⟨some 0, "application/json", some "not json", none⟩
      "not json" rfl (by decide)).2.2.1 rfl (by decide)

/-- The "2xx" status filter passes exactly the statuses in [200,300). -/
lemma entryPasses_2xx_iff (e : HarEntry) :
    entryPasses "" "all" "2xx" e = true ↔
      200 ≤ e.response.status ∧ e.response.status < 300 := by
  simp [entryPasses]

/-- The "3xx" status filter passes exactly the statuses in [300,400). -/
lemma entryPasses_3xx_iff (e : HarEntry) :
    entryPasses "" "all" "3xx" e = true ↔
      300 ≤ e.response.status ∧ e.response.status < 400 := by
  simp [entryPasses]

/-- The "4xx" status filter passes exactly the statuses in [400,500). -/
lemma entryPasses_4xx_iff (e : HarEntry) :
    entryPasses "" "all" "4xx" e = true ↔
      400 ≤ e.response.status ∧ e.response.status < 500 := by
  simp [entryPasses]

/-- The "5xx" status filter passes exactly the statuses in [500,600). -/
lemma entryPasses_5xx_iff (e : HarEntry) :
    entryPasses "" "all" "5xx" e = true ↔
      500 ≤ e.response.status ∧ e.response.status < 600 := by
  simp [entryPasses]

/-- Claim C9: the status filter buckets are half-open hundred ranges —
option "2xx" passes exactly the statuses in [200,300), and similarly
for 3xx, 4xx and 5xx — the tally classifies 199 as Other and 200, 299,
300 as 2xx, 2xx, 3xx; and a status below 200 or at/above 600 fails
every specific bucket filter and lands in Other. -/
theorem claim_C9_status_buckets (e : HarEntry) :
    (entryPasses "" "all" "2xx" e = true ↔
      200 ≤ e.response.status ∧ e.response.status < 300) ∧
    (entryPasses "" "all" "3xx" e = true ↔
      300 ≤ e.response.status ∧ e.response.status < 400) ∧
    (entryPasses "" "all" "4xx" e = true ↔
      400 ≤ e.response.status ∧ e.response.status < 500) ∧
    (entryPasses "" "all" "5xx" e = true ↔
      500 ≤ e.response.status ∧ e.response.status < 600) ∧
    statusClassOf 199 = StatusClass.other ∧
    statusClassOf 200 = StatusClass.s2xx ∧
    statusClassOf 299 = StatusClass.s2xx ∧
    statusClassOf 300 = StatusClass.s3xx ∧
    (e.response.status < 200 ∨ 600 ≤ e.response.status →
      entryPasses "" "all" "2xx" e = false ∧
      entryPasses "" "all" "3xx" e = false ∧
      entryPasses "" "all" "4xx" e = false ∧
      entryPasses "" "all" "5xx" e = false ∧
      statusClassOf e.response.status = StatusClass.other) := by
  refine ⟨entryPasses_2xx_iff e, entryPasses_3xx_iff e, entryPasses_4xx_iff e,
    entryPasses_5xx_iff e, by decide, by decide, by decide, by decide, ?_⟩
  intro h
  have b2 : entryPasses "" "all" "2xx" e = false := by
    cases hb : entryPasses "" "all" "2xx" e
    · rfl
    · exact absurd ((entryPasses_2xx_iff e).mp hb) (by omega)
  have b3 : entryPasses "" "all" "3xx" e = false := by
    cases hb : entryPasses "" "all" "3xx" e
    · rfl
    · exact absurd ((entryPasses_3xx_iff e).mp hb) (by omega)
  have b4 : entryPasses "" "all" "4xx" e = false := by
    cases hb : entryPasses "" "all" "4xx" e
    · rfl
    · exact absurd ((entryPasses_4xx_iff e).mp hb) (by omega)
  have b5 : entryPasses "" "all" "5xx" e = false := by
    cases hb : entryPasses "" "all" "5xx" e
    · rfl
    · exact absurd ((entryPasses_5xx_iff e).mp hb) (by omega)
  have hcls : statusClassOf e.response.status = StatusClass.other := by
    unfold statusClassOf
    rw [if_neg (by omega), if_neg (by omega), if_neg (by omega), if_neg (by omega)]
  exact ⟨b2, b3, b4, b5, hcls⟩

/-- Witness for claim C9 at a concrete out-of-range status. -/
theorem claim_C9_witness :
    entryPasses "" "all" "2xx" (mkEntry "GET" "u" 150 "text/plain" none none)
        = false ∧
    entryPasses "" "all" "3xx" (mkEntry "GET" "u" 150 "text/plain" none none)
        = false ∧
    entryPasses "" "all" "4xx" (mkEntry "GET" "u" 150 "text/plain" none none)
        = false ∧
    entryPasses "" "all" "5xx" (mkEntry "GET" "u" 150 "text/plain" none none)
        = false ∧
    statusClassOf (mkEntry "GET" "u" 150 "text/plain" none none).response.status
        = StatusClass.other :=
  (claim_C9_status_buckets
      (mkEntry "GET" "u" 150 "text/plain" none none)).2.2.2.2.2.2.2.2
    (by decide)

/-- Claim C10: in the content-type distribution, a MIME type containing
no '/' is grouped under the entire MIME string after stripping the
parameters following ';' and trimming whitespace, rather than being
skipped or failing; the empty MIME type contributes the empty-string
group. -/
theorem claim_C10_no_slash_group (mime : String) :
    (jsIncludes mime "/" = false →
      contentTypeKey mime = jsTrim ((jsSplit ';' mime).headD "")) ∧
    contentTypeKey "" = "" ∧
    contentTypeCounts [mkEntry "GET" "http://e.com/" 200 "" none none] =
      [("", 1)] := by
  refine ⟨?_, by decide, by decide⟩
  intro h
  have hmem : '/' ∉ mime.toList := by
    intro hm
    have h2 := (occursIn_singleton '/' mime.toList).mpr hm
    have h3 : jsIncludes mime "/" = true := h2
    rw [h] at h3
    exact Bool.false_ne_true h3
  have hk : jsIncludes (jsTrim ((jsSplit ';' mime).headD "")) "/" = false := by
    rcases hq : splitChL ';' mime.toList with _ | ⟨h0, t0⟩
    · exact absurd hq (splitChL_ne_nil ';' mime.toList)
    · have hhead : (jsSplit ';' mime).headD "" = h0.asString := by
        unfold jsSplit
        rw [hq]
        rfl
      rw [hhead]
      cases hv : jsIncludes (jsTrim h0.asString) "/"
      · rfl
      · exfalso
        have htrue : occursIn ['/'] (jsTrimL h0) = true := hv
        have h1 : '/' ∈ jsTrimL h0 := (occursIn_singleton '/' (jsTrimL h0)).mp htrue
        have h2 : '/' ∈ h0 := mem_jsTrimL '/' h0 h1
        have h3 : '/' ∈ mime.toList := by
          refine mem_headD_splitChL ';' '/' mime.toList ?_
          rw [hq]
          simpa using h2
        exact hmem h3
  have hkP : ¬ (jsIncludes (jsTrim ((jsSplit ';' mime).headD "")) "/" = true) := by
    rw [hk]
    exact Bool.false_ne_true
  simp only [contentTypeKey]
  rw [if_neg hkP]

/-- Witness for claim C10 on a concrete slash-free MIME type. -/
theorem claim_C10_witness :
    contentTypeKey "weird" = jsTrim ((jsSplit ';' "weird").headD "") :=
  (claim_C10_no_slash_group "weird").1 (by decide)

end HarSpec
